import Mathlib

/-!
Verification of the cross-process sense-reversing cycle barrier implemented in
`switchboard/cpp/barrier_sync.h` (with thin callers in `dpi/barrier_dpi.cc` and
`verilator/testbench_sync.cc`).

The shared structure `cycle_barrier_shared` and the per-process handle
`cycle_barrier` are embedded as Lean structures; machine integers are `Nat`
reduced mod `2^32` / `2^64` exactly where the C unsigned arithmetic wraps.
The atomic operations each function performs on the shared structure are also
reified as an `Action` trace so that ordering claims (reset before release,
publish `initialized` last) are about the literal store/fence sequence of the
source.  The concurrent wait algorithm is embedded a second time as a
small-step interleaving machine (`WaitStep`), one transition per atomic
access, over an arbitrary number of processes.
-/

namespace CycleBarrier

/-- Modulus of the C `uint32_t` fields. -/
def U32 : Nat := 2 ^ 32

/-- Modulus of the C `uint64_t` field `cycle_count`. -/
def U64 : Nat := 2 ^ 64

/-- The shared structure `cycle_barrier_shared`: one cache-line-aligned field
per member, shared by every participating process via `mmap`.
`cycle_count` is `uint64_t`; the other four are `uint32_t`. -/
structure cycle_barrier_shared where
  cycle_count : Nat
  barrier_count : Nat
  num_processes : Nat
  sense : Nat
  initialized : Nat
deriving DecidableEq, Repr

/-- The per-process handle `cycle_barrier`.  Pointers (`shm`, `name`) are
embedded as validity flags (the pointed-to shared state travels separately);
`fd` keeps its C type `int`. -/
structure cycle_barrier where
  shm_valid : Bool
  name_valid : Bool
  fd : Int
  is_leader : Bool
  local_sense : Nat
  unmap_at_close : Bool
deriving DecidableEq, Repr

/-- An atomic access to the shared structure, or a fence: the events of
`barrier_init_shared`, `barrier_wait` and `barrier_get_cycle`. -/
inductive Action where
  | loadNumProcesses
  | addBarrierCount (v : Nat)
  | storeBarrierCount (v : Nat)
  | fence
  | addCycleCount (v : Nat)
  | storeSense (v : Nat)
  | loadSense
  | loadCycleCount
  | storeCycleCount (v : Nat)
  | storeNumProcesses (v : Nat)
  | storeInitialized (v : Nat)
deriving DecidableEq, Repr

/-- Effect of one action on the shared structure (loads and fences leave it
unchanged; stores and fetch-adds hit the one field, wrapping at the field's
width). -/
def Action.apply : Action → cycle_barrier_shared → cycle_barrier_shared
  | .storeCycleCount v, s => { s with cycle_count := v % U64 }
  | .addCycleCount v, s => { s with cycle_count := (s.cycle_count + v) % U64 }
  | .storeBarrierCount v, s => { s with barrier_count := v % U32 }
  | .addBarrierCount v, s => { s with barrier_count := (s.barrier_count + v) % U32 }
  | .storeNumProcesses v, s => { s with num_processes := v % U32 }
  | .storeSense v, s => { s with sense := v % U32 }
  | .storeInitialized v, s => { s with initialized := v % U32 }
  | _, s => s

/-- Run a trace of actions left to right over the shared structure. -/
def applyTrace (as : List Action) (s : cycle_barrier_shared) : cycle_barrier_shared :=
  as.foldl (fun t a => a.apply t) s

/-- The exact sequence of atomic operations `barrier_init_shared` performs:
four `SEQ_CST` stores, a full fence, then the store of `initialized = 1`. -/
def barrier_init_shared_trace (num_processes : Nat) : List Action :=
  [.storeCycleCount 0, .storeBarrierCount 0, .storeNumProcesses num_processes,
   .storeSense 0, .fence, .storeInitialized 1]

/-- State effect of `barrier_init_shared(shm, num_processes)`. -/
def barrier_init_shared (s : cycle_barrier_shared) (num_processes : Nat) :
    cycle_barrier_shared :=
  { s with cycle_count := 0, barrier_count := 0, num_processes := num_processes % U32,
           sense := 0, initialized := 1 }

/-- The all-zero shared structure: content of the freshly created backing file
(`O_CREAT|O_TRUNC` then `ftruncate`) before the leader populates it. -/
def zeroShared : cycle_barrier_shared :=
  { cycle_count := 0, barrier_count := 0, num_processes := 0, sense := 0, initialized := 0 }

/-- The C expression `1 - my_sense` on `uint32_t`: flips 0 and 1 (and wraps
for out-of-range values, as unsigned subtraction does). -/
def senseFlip (x : Nat) : Nat := (U32 + 1 - x % U32) % U32

/-- The releaser branch of `barrier_wait` (lines 221-235): reset
`barrier_count`, fence, increment `cycle_count`, store `my_sense` into
`sense`. -/
def wait_release (my_sense : Nat) (s : cycle_barrier_shared) : cycle_barrier_shared :=
  { s with barrier_count := 0,
           cycle_count := (s.cycle_count + 1) % U64,
           sense := my_sense % U32 }

/-- The exact sequence of atomic operations of one `barrier_wait` call: the
load of `num_processes`, the fetch-add arrival, then either the releaser
sequence (when the add made the counter reach `num_processes`) or
`spins + 1` polls of `sense` (the last one successful), and finally the full
fence and the `cycle_count` load every caller performs. -/
def barrier_wait_trace (num_procs my_sense arrived spins : Nat) : List Action :=
  [.loadNumProcesses, .addBarrierCount 1] ++
    (if arrived = num_procs then
      [.storeBarrierCount 0, .fence, .addCycleCount 1, .storeSense my_sense]
    else
      List.replicate (spins + 1) .loadSense) ++
    [.fence, .loadCycleCount]

/-- Sequential (interference-free) semantics of one `barrier_wait(b)` call:
the result, the updated handle and the updated shared structure.  When the
caller's increment does not reach `num_processes` and `sense` already differs
from `local_sense`, the spin loop never exits without another process, which
is `none` here.  (The concurrent semantics is `WaitStep` below.) -/
def barrier_wait_seq (b : cycle_barrier) (s : cycle_barrier_shared) :
    Option (Nat × cycle_barrier × cycle_barrier_shared) :=
  let my_sense := b.local_sense
  let arrived := (s.barrier_count + 1) % U32
  let s1 := { s with barrier_count := arrived }
  if arrived = s.num_processes then
    let s2 := wait_release my_sense s1
    some (s2.cycle_count, { b with local_sense := senseFlip my_sense }, s2)
  else if s1.sense = my_sense % U32 then
    some (s1.cycle_count, { b with local_sense := senseFlip my_sense }, s1)
  else
    none

/-- The single atomic operation of `barrier_get_cycle`. -/
def barrier_get_cycle_trace : List Action := [.loadCycleCount]

/-- `barrier_get_cycle(b)`: one acquire load of the shared cycle counter. -/
def barrier_get_cycle (s : cycle_barrier_shared) : Nat := s.cycle_count

/-- `barrier_all_ready(b)`: one acquire load of `initialized`, compared to 1. -/
def barrier_all_ready (s : cycle_barrier_shared) : Bool := s.initialized == 1

/-- `barrier_set_num_processes(b, n)`: one release store (leader only). -/
def barrier_set_num_processes (s : cycle_barrier_shared) (n : Nat) : cycle_barrier_shared :=
  { s with num_processes := n % U32 }

/-! ### The open / close lifecycle (`barrier_open`, `barrier_close`)

`barrier_open` interacts with the operating system (open, ftruncate, fstat,
mmap, usleep); those calls are abstracted into an `OpenEnv` giving the result
of each attempt, indexed by the retry counter.  Heap/kernel resources the
function acquires are tracked explicitly so that the error label's exact
releases (`close(fd)`, `free(b)` — and nothing else) are visible. -/

/-- Result of one `open(name, flags)` attempt in the retry loop. -/
inductive OpenAttempt where
  | success
  | enoent
  | otherErr
deriving DecidableEq, Repr

/-- Environment of one `barrier_open` call: what each OS interaction returns,
indexed by the value of `retries` at the moment of the call. -/
structure OpenEnv where
  memalignOk : Bool
  openAt : Nat → OpenAttempt
  ftruncateOk : Bool
  sizedAt : Nat → Bool
  mmapOk : Bool
  initAt : Nat → Bool
  fdVal : Nat

/-- A resource `barrier_open` acquires along the way. -/
inductive Res where
  | handleMem
  | fileDesc
  | mapping
  | nameStr
deriving DecidableEq, Repr

/-- Which `goto err` / failure path `barrier_open` took (each corresponds to a
distinct diagnostic in the source). -/
inductive OpenErr where
  | allocFailed
  | openFailed
  | openTimeout
  | truncFailed
  | sizeTimeout
  | mmapFailed
  | initTimeout
deriving DecidableEq, Repr

/-- `const int max_retries = 1000;` — the shared retry budget of all three
polling phases. -/
def max_retries : Nat := 1000

/-- Sleep in microseconds between polls of the file-existence loop (`usleep(10000)`). -/
def usleep_file_wait : Nat := 10000

/-- Sleep in microseconds between polls of the file-size loop (`usleep(10000)`). -/
def usleep_size_wait : Nat := 10000

/-- Sleep in microseconds between polls of the `initialized` flag (`usleep(1000)`). -/
def usleep_init_wait : Nat := 1000

/-- One bounded polling loop `while (retries < max_retries) { if (p retries)
break; usleep(..); retries++; }`, started at `retries = r` with
`fuel = max_retries - r` iterations left: the retry count at the first
successful check, or `none` when the budget is exhausted. -/
def pollLoop (p : Nat → Bool) : Nat → Nat → Option Nat
  | _, 0 => none
  | r, fuel + 1 => if p r then some r else pollLoop p (r + 1) fuel

/-- Result of the file-open retry loop (phase 1). -/
inductive Phase1Res where
  | ok (attempt : Nat)
  | errOther
  | timeout
deriving DecidableEq, Repr

/-- The first polling phase of `barrier_open`: retry `open` while a follower
sees `ENOENT`; any other failure (or `ENOENT` for the leader) jumps to the
error label; exhausting the budget leaves `fd < 0`. -/
def openLoop (att : Nat → OpenAttempt) (is_leader : Bool) : Nat → Nat → Phase1Res
  | _, 0 => .timeout
  | r, fuel + 1 =>
    match att r with
    | .success => .ok r
    | .enoent => if is_leader then .errOther else openLoop att is_leader (r + 1) fuel
    | .otherErr => .errOther

/-- The error label of `barrier_open`: `close(fd)` when a descriptor is open
and `free(b)` — the mapping and the `strdup`ed name are not touched.  Returns
what stays acquired (leaked) after those two releases. -/
def err_release (acquired : List Res) : List Res :=
  acquired.filter (fun r => !(r == Res.fileDesc || r == Res.handleMem))

/-- `barrier_open(name, is_leader, num_processes)` over an environment.
`shm0` is the content of the shared region at mapping time.  Returns the
outcome (handle and mapped shared state, or the failure taken) paired with
the resources still acquired when the function returns `NULL` (empty on
success: the handle then owns them). -/
def barrier_open (env : OpenEnv) (is_leader : Bool) (num_processes : Nat)
    (shm0 : cycle_barrier_shared) :
    Except OpenErr (cycle_barrier × cycle_barrier_shared) × List Res :=
  if !env.memalignOk then (.error .allocFailed, err_release [])
  else
    match openLoop env.openAt is_leader 0 max_retries with
    | .errOther => (.error .openFailed, err_release [.handleMem])
    | .timeout => (.error .openTimeout, err_release [.handleMem])
    | .ok _ =>
      if is_leader then
        if !env.ftruncateOk then (.error .truncFailed, err_release [.handleMem, .fileDesc])
        else if !env.mmapOk then (.error .mmapFailed, err_release [.handleMem, .fileDesc])
        else
          let b : cycle_barrier :=
            { shm_valid := true, name_valid := true, fd := (env.fdVal : Int),
              is_leader := is_leader, local_sense := 1, unmap_at_close := true }
          (.ok (b, barrier_init_shared shm0 num_processes), [])
      else
        match pollLoop env.sizedAt 0 max_retries with
        | none => (.error .sizeTimeout, err_release [.handleMem, .fileDesc])
        | some _ =>
          if !env.mmapOk then (.error .mmapFailed, err_release [.handleMem, .fileDesc])
          else
            let b : cycle_barrier :=
              { shm_valid := true, name_valid := true, fd := (env.fdVal : Int),
                is_leader := is_leader, local_sense := 1, unmap_at_close := true }
            match pollLoop env.initAt 0 max_retries with
            | none =>
              (.error .initTimeout, err_release [.handleMem, .fileDesc, .mapping, .nameStr])
            | some _ => (.ok (b, shm0), [])

/-- Observable effects of one `barrier_close` call. -/
structure CloseEffect where
  unmapped : Bool
  fd_closed : Bool
  unlinked : Bool
  freed_name : Bool
  freed_handle : Bool
deriving DecidableEq, Repr

/-- `barrier_close(b)`: `none` models the `NULL` handle (early return, no
effect); otherwise unmap when `unmap_at_close && shm`, close `fd` when
nonnegative, `unlink` when `is_leader && name`, then free the name and the
handle. -/
def barrier_close : Option cycle_barrier → CloseEffect
  | none =>
    { unmapped := false, fd_closed := false, unlinked := false,
      freed_name := false, freed_handle := false }
  | some b =>
    { unmapped := b.unmap_at_close && b.shm_valid,
      fd_closed := decide (0 ≤ b.fd),
      unlinked := b.is_leader && b.name_valid,
      freed_name := true, freed_handle := true }

/-! ### Shared-state reachability (arrivals and resize)

The effect of one arrival (`barrier_wait`'s fetch-add, plus the releaser
branch when the increment reaches `num_processes`) on the shared structure
alone, and the states reachable from `barrier_init_shared` when each episode
has at most `num_processes` `wait` calls in flight and resizes happen only
between episodes. -/

/-- Shared-state effect of one arrival by a process whose captured local
sense is `my_sense`. -/
def wait_shared_step (my_sense : Nat) (s : cycle_barrier_shared) : cycle_barrier_shared :=
  let arrived := (s.barrier_count + 1) % U32
  let s1 := { s with barrier_count := arrived }
  if arrived = s.num_processes then wait_release my_sense s1 else s1

/-- Shared states reachable by barrier operations from a freshly initialized
barrier: an arrival may happen only while fewer than `num_processes` calls
are in flight (`barrier_count < num_processes`), and
`barrier_set_num_processes` only while all participants are parked between
episodes (`barrier_count = 0`, the caller contract from the source). -/
inductive BarrierReach : cycle_barrier_shared → Prop where
  | init (n : Nat) : BarrierReach (barrier_init_shared zeroShared n)
  | arrive (s : cycle_barrier_shared) (my_sense : Nat)
      (hin : s.barrier_count < s.num_processes) (hs : BarrierReach s) :
      BarrierReach (wait_shared_step my_sense s)
  | resize (s : cycle_barrier_shared) (n : Nat)
      (hq : s.barrier_count = 0) (hs : BarrierReach s) :
      BarrierReach (barrier_set_num_processes s n)

/-! ### The concurrent wait machine

One `barrier_wait` call per process, at the granularity of one shared-memory
access per transition.  `ms i` is the value of `my_sense` process `i`
captured at the top of its call. -/

/-- Control point of one process inside its `barrier_wait` call.
`releasing r` is the releaser branch with `r` of its four operations done;
`fencing`/`loading` are the final fence and `cycle_count` load every caller
executes; `done ret` has returned `ret`. -/
inductive PState where
  | arriving
  | releasing (r : Nat)
  | spinning
  | fencing
  | loading
  | done (ret : Nat)
deriving DecidableEq, Repr

/-- Configuration of an episode: the shared structure and each process's
control point. -/
structure Config (n : Nat) where
  shm : cycle_barrier_shared
  procs : Fin n → PState

/-- One interleaved atomic step of some process `i` inside `barrier_wait`:
the fetch-add arrival (branching on whether it reached `num_processes`), the
four releaser operations in source order, a failed or successful poll of
`sense`, the final fence, and the return load of `cycle_count`. -/
inductive WaitStep (n : Nat) (ms : Fin n → Nat) : Config n → Config n → Prop where
  | arrive (c : Config n) (i : Fin n) (h : c.procs i = .arriving) :
      WaitStep n ms c
        ⟨{ c.shm with barrier_count := (c.shm.barrier_count + 1) % U32 },
         Function.update c.procs i
           (if (c.shm.barrier_count + 1) % U32 = c.shm.num_processes then
              .releasing 0 else .spinning)⟩
  | relReset (c : Config n) (i : Fin n) (h : c.procs i = .releasing 0) :
      WaitStep n ms c
        ⟨{ c.shm with barrier_count := 0 }, Function.update c.procs i (.releasing 1)⟩
  | relFence (c : Config n) (i : Fin n) (h : c.procs i = .releasing 1) :
      WaitStep n ms c ⟨c.shm, Function.update c.procs i (.releasing 2)⟩
  | relInc (c : Config n) (i : Fin n) (h : c.procs i = .releasing 2) :
      WaitStep n ms c
        ⟨{ c.shm with cycle_count := (c.shm.cycle_count + 1) % U64 },
         Function.update c.procs i (.releasing 3)⟩
  | relSense (c : Config n) (i : Fin n) (h : c.procs i = .releasing 3) :
      WaitStep n ms c
        ⟨{ c.shm with sense := ms i % U32 }, Function.update c.procs i .fencing⟩
  | spinMiss (c : Config n) (i : Fin n) (h : c.procs i = .spinning)
      (hs : c.shm.sense ≠ ms i % U32) :
      WaitStep n ms c c
  | spinHit (c : Config n) (i : Fin n) (h : c.procs i = .spinning)
      (hs : c.shm.sense = ms i % U32) :
      WaitStep n ms c ⟨c.shm, Function.update c.procs i .fencing⟩
  | finalFence (c : Config n) (i : Fin n) (h : c.procs i = .fencing) :
      WaitStep n ms c ⟨c.shm, Function.update c.procs i .loading⟩
  | retLoad (c : Config n) (i : Fin n) (h : c.procs i = .loading) :
      WaitStep n ms c ⟨c.shm, Function.update c.procs i (.done c.shm.cycle_count)⟩

/-- Interleavings: reflexive-transitive closure of single steps. -/
def EpisodeReach (n : Nat) (ms : Fin n → Nat) : Config n → Config n → Prop :=
  Relation.ReflTransGen (WaitStep n ms)

/-- Start of an episode: `barrier_count = 0`, cycle `c0`, sense `sense0`, and
every process about to execute its fetch-add. -/
def episodeStart (n c0 sense0 i0 : Nat) : Config n :=
  ⟨{ cycle_count := c0, barrier_count := 0, num_processes := n, sense := sense0,
     initialized := i0 }, fun _ => .arriving⟩

/-- Number of processes past their fetch-add arrival. -/
def arrivedCount {n : Nat} (c : Config n) : Nat :=
  (Finset.univ.filter fun i => c.procs i ≠ PState.arriving).card

/-! ### Single-process runs (`num_processes = 1`) -/

/-- Handle as produced by a successful leader `barrier_open`
(`local_sense = 1`, owner of the mapping). -/
def solo_handle : cycle_barrier :=
  { shm_valid := true, name_valid := true, fd := 0, is_leader := true,
    local_sense := 1, unmap_at_close := true }

/-- Shared state just after the leader opened with `num_processes = 1`. -/
def solo_shared : cycle_barrier_shared := barrier_init_shared zeroShared 1

/-- Handle and shared state after `k` `barrier_wait` calls of the single
process (the `none` fallback is never taken when `num_processes = 1`). -/
def soloState : Nat → cycle_barrier × cycle_barrier_shared
  | 0 => (solo_handle, solo_shared)
  | k + 1 =>
    match barrier_wait_seq (soloState k).1 (soloState k).2 with
    | some (_, b, s) => (b, s)
    | none => soloState k

/-- Return value of the `(k+1)`-st `barrier_wait` call of the single process. -/
def soloRet (k : Nat) : Option Nat :=
  (barrier_wait_seq (soloState k).1 (soloState k).2).map (fun o => o.1)

/-- Shared state with the cycle counter at the top of its `uint64_t` range:
reached after `2^64 - 1` completed episodes of a single-process barrier. -/
def wrapShared : cycle_barrier_shared :=
  { cycle_count := U64 - 1, barrier_count := 0, num_processes := 1, sense := 0,
    initialized := 1 }

/-- Follower environment whose leader never appears: every `open` attempt
fails with `ENOENT`. -/
def absentLeaderEnv : OpenEnv :=
  { memalignOk := true, openAt := fun _ => OpenAttempt.enoent, ftruncateOk := true,
    sizedAt := fun _ => false, mmapOk := true, initAt := fun _ => false, fdVal := 3 }

/-- Follower environment whose leader created and sized the file but never
initializes the shared structure: phases 1 and 2 succeed, `mmap` succeeds,
the `initialized` poll times out. -/
def leakEnv : OpenEnv :=
  { memalignOk := true, openAt := fun _ => OpenAttempt.success, ftruncateOk := true,
    sizedAt := fun _ => true, mmapOk := true, initAt := fun _ => false, fdVal := 3 }

/-! ### The episode invariant of the concurrent wait machine -/

/-- Invariant of one episode run from `episodeStart`: either some processes
are still arriving (the arrival counter equals the number past their
fetch-add, nobody released), or the unique releaser `j` is `r` operations
into the releaser sequence (counter reset at `r ≥ 1`, cycle incremented at
`r = 3`), or the release signal is out (all waiters either still spinning or
past it, every finished process returned `(c0 + 1) % U64`). -/
inductive EpisodeInv (n c0 sense0 i0 m : Nat) : Config n → Prop where
  | gather (c : Config n)
      (hp : ∀ i, c.procs i = PState.arriving ∨ c.procs i = PState.spinning)
      (hA : arrivedCount c < n)
      (hshm : c.shm = { cycle_count := c0, barrier_count := arrivedCount c,
                        num_processes := n, sense := sense0, initialized := i0 }) :
      EpisodeInv n c0 sense0 i0 m c
  | rel (c : Config n) (j : Fin n) (r : Nat) (hr : r ≤ 3)
      (hj : c.procs j = PState.releasing r)
      (hp : ∀ i, i ≠ j → c.procs i = PState.spinning)
      (hshm : c.shm = { cycle_count := if r ≤ 2 then c0 else (c0 + 1) % U64,
                        barrier_count := if r = 0 then n else 0,
                        num_processes := n, sense := sense0, initialized := i0 }) :
      EpisodeInv n c0 sense0 i0 m c
  | released (c : Config n)
      (hp : ∀ i, c.procs i = PState.spinning ∨ c.procs i = PState.fencing ∨
        c.procs i = PState.loading ∨ c.procs i = PState.done ((c0 + 1) % U64))
      (hshm : c.shm = { cycle_count := (c0 + 1) % U64, barrier_count := 0,
                        num_processes := n, sense := m % U32, initialized := i0 }) :
      EpisodeInv n c0 sense0 i0 m c

/-- Local sense function of the single-process demo episode. -/
def msDemo : Fin 1 → Nat := fun _ => 1

/-- Start of the single-process demo episode. -/
def demoStart : Config 1 := episodeStart 1 0 0 1

/-- Configurations of the single-process demo episode, one per machine
step. -/
def demoCfg1 : Config 1 :=
  ⟨{ cycle_count := 0, barrier_count := 1, num_processes := 1, sense := 0,
     initialized := 1 }, fun _ => PState.releasing 0⟩

def demoCfg2 : Config 1 :=
  ⟨{ cycle_count := 0, barrier_count := 0, num_processes := 1, sense := 0,
     initialized := 1 }, fun _ => PState.releasing 1⟩

def demoCfg3 : Config 1 :=
  ⟨{ cycle_count := 0, barrier_count := 0, num_processes := 1, sense := 0,
     initialized := 1 }, fun _ => PState.releasing 2⟩

def demoCfg4 : Config 1 :=
  ⟨{ cycle_count := 1, barrier_count := 0, num_processes := 1, sense := 0,
     initialized := 1 }, fun _ => PState.releasing 3⟩

def demoCfg5 : Config 1 :=
  ⟨{ cycle_count := 1, barrier_count := 0, num_processes := 1, sense := 1,
     initialized := 1 }, fun _ => PState.fencing⟩

def demoCfg6 : Config 1 :=
  ⟨{ cycle_count := 1, barrier_count := 0, num_processes := 1, sense := 1,
     initialized := 1 }, fun _ => PState.loading⟩

/-- Final configuration of the single-process demo episode. -/
def demoFinal : Config 1 :=
  ⟨{ cycle_count := 1, barrier_count := 0, num_processes := 1, sense := 1,
     initialized := 1 }, fun _ => PState.done 1⟩

/-! ## Supporting lemmas -/

lemma U32_pos : 0 < U32 := by norm_num [U32]

lemma one_lt_U32 : 1 < U32 := by norm_num [U32]

/-- The spin loop only reads: a run of `loadSense` polls leaves the shared
structure untouched. -/
lemma applyTrace_replicate_loadSense (k : Nat) (s : cycle_barrier_shared) :
    applyTrace (List.replicate k Action.loadSense) s = s := by
  induction k with
  | zero => rfl
  | succ k ih => simpa [applyTrace, List.replicate_succ, Action.apply] using ih

/-- Fidelity of the releaser trace: replaying the atomic operations of a
`barrier_wait` call whose increment reached `num_processes` produces exactly
the shared-state effect of the fetch-add followed by `wait_release`. -/
lemma wait_trace_releaser_sound (np my sp : Nat) (s : cycle_barrier_shared) :
    applyTrace (barrier_wait_trace np my np sp) s =
      wait_release my { s with barrier_count := (s.barrier_count + 1) % U32 } := by
  simp [barrier_wait_trace, applyTrace, Action.apply, wait_release, Nat.zero_mod]

/-- Fidelity of the waiter trace: a call whose increment did not reach
`num_processes` only performs its fetch-add; the polls change nothing. -/
lemma wait_trace_spin_sound (np my arr sp : Nat) (h : arr ≠ np) (s : cycle_barrier_shared) :
    applyTrace (barrier_wait_trace np my arr sp) s =
      { s with barrier_count := (s.barrier_count + 1) % U32 } := by
  have hrep := applyTrace_replicate_loadSense (sp + 1)
    { s with barrier_count := (s.barrier_count + 1) % U32 }
  simp [barrier_wait_trace, applyTrace, Action.apply, h] at hrep ⊢
  simpa [applyTrace] using hrep

/-! ## Claims -/

/-- C1: a `barrier_wait` call whose fetch-add reaches the expected arrival
count performs, in source order, the store of 0 into `barrier_count`, a full
fence, the increment of `cycle_count` by exactly 1, and only then the store
of the caller's locally-expected sense value into `sense`; in particular the
arrival-counter reset precedes the release-signal store. -/
theorem releaser_order_spec (np my sp : Nat) :
    barrier_wait_trace np my np sp =
      [Action.loadNumProcesses, Action.addBarrierCount 1, Action.storeBarrierCount 0,
       Action.fence, Action.addCycleCount 1, Action.storeSense my, Action.fence,
       Action.loadCycleCount] ∧
    ((barrier_wait_trace np my np sp)[2]? = some (Action.storeBarrierCount 0) ∧
     (barrier_wait_trace np my np sp)[3]? = some Action.fence ∧
     (barrier_wait_trace np my np sp)[4]? = some (Action.addCycleCount 1) ∧
     (barrier_wait_trace np my np sp)[5]? = some (Action.storeSense my)) ∧
    (∃ i j : Nat, i < j ∧ (barrier_wait_trace np my np sp)[i]? = some (Action.storeBarrierCount 0) ∧
      (barrier_wait_trace np my np sp)[j]? = some (Action.storeSense my)) := by
  have ht : barrier_wait_trace np my np sp =
      [Action.loadNumProcesses, Action.addBarrierCount 1, Action.storeBarrierCount 0,
       Action.fence, Action.addCycleCount 1, Action.storeSense my, Action.fence,
       Action.loadCycleCount] := by
    simp [barrier_wait_trace]
  refine ⟨ht, ⟨?_, ?_, ?_, ?_⟩, 2, 5, by omega, ?_, ?_⟩ <;> rw [ht] <;> rfl

/-- C4: the leader-path initialization stores `cycle_count = 0`,
`barrier_count = 0`, `num_processes` = the caller-supplied count and
`sense = 0`, and stores `initialized = 1` strictly last, after a full fence:
`initialized` transitions from 0 (the truncated file's content) to 1 exactly
at the final store, with every other field already populated. -/
theorem init_shared_publishes_last (n : Nat) :
    barrier_init_shared_trace n =
      [Action.storeCycleCount 0, Action.storeBarrierCount 0, Action.storeNumProcesses n,
       Action.storeSense 0, Action.fence, Action.storeInitialized 1] ∧
    (barrier_init_shared_trace n).getLast? = some (Action.storeInitialized 1) ∧
    ((barrier_init_shared_trace n).countP fun a =>
      match a with | Action.storeInitialized _ => true | _ => false) = 1 ∧
    (∀ s, applyTrace (barrier_init_shared_trace n) s = barrier_init_shared s n) ∧
    barrier_init_shared zeroShared n =
      { cycle_count := 0, barrier_count := 0, num_processes := n % U32, sense := 0,
        initialized := 1 } ∧
    (∀ k, (applyTrace ((barrier_init_shared_trace n).take k) zeroShared).initialized =
      if k ≤ 5 then 0 else 1) := by
  refine ⟨rfl, rfl, rfl, ?_, ?_, ?_⟩
  · intro s
    simp [barrier_init_shared_trace, applyTrace, Action.apply, barrier_init_shared,
      Nat.zero_mod, U64, U32]
  · simp [barrier_init_shared, zeroShared]
  · intro k
    match k with
    | 0 => rfl
    | 1 => rfl
    | 2 => rfl
    | 3 => rfl
    | 4 => rfl
    | 5 => rfl
    | (j + 6) =>
      rw [if_neg (by omega), List.take_of_length_le (by simp [barrier_init_shared_trace])]
      rfl

/-- C2: every completed `barrier_wait` call (releaser branch or waiter
branch alike) replaces the handle's locally-expected sense by `1 - sense`
(uint32), so for the 0/1 values the protocol uses it flips on every call, and
across successive completed waits of a handle opened with `local_sense = 1`
the expected values strictly alternate 1,0,1,0,… -/
theorem local_sense_alternation :
    (∀ b s out, barrier_wait_seq b s = some out →
      out.2.1.local_sense = senseFlip b.local_sense) ∧
    (∀ x, x ≤ 1 → senseFlip x = 1 - x) ∧
    (∀ x, x ≤ 1 → senseFlip (senseFlip x) = x) ∧
    (∀ k, senseFlip^[k] 1 = if k % 2 = 0 then 1 else 0) := by
  have hflip : ∀ x, x ≤ 1 → senseFlip x = 1 - x := by
    intro x hx
    rcases Nat.le_one_iff_eq_zero_or_eq_one.mp hx with h | h <;> subst h <;> decide
  refine ⟨?_, hflip, ?_, ?_⟩
  · intro b s out h
    unfold barrier_wait_seq at h
    dsimp only at h
    split at h
    · cases h; rfl
    · split at h
      · cases h; rfl
      · cases h
  · intro x hx
    rcases Nat.le_one_iff_eq_zero_or_eq_one.mp hx with h | h <;> subst h <;> decide
  · intro k
    induction k with
    | zero => rfl
    | succ k ih =>
      rw [Function.iterate_succ_apply', ih]
      rcases Nat.mod_two_eq_zero_or_one k with hk | hk
      · have h1 : (k + 1) % 2 = 1 := by omega
        rw [if_pos hk, if_neg (by omega)]
        decide
      · have h1 : (k + 1) % 2 = 0 := by omega
        rw [if_neg (by omega), if_pos h1]
        decide

/-- C3 (amended): `barrier_get_cycle` is a single atomic load — its operation
trace is one `loadCycleCount`, with no loop and no store — and, provided the
64-bit cycle counter does not wrap (`cycle_count + 1 < 2^64`), the value it
reads is at most the value the same handle's next completed `barrier_wait`
call returns.  (At `cycle_count = 2^64 - 1` the uint64 increment wraps to 0
and the inequality fails; see the counterexample.) -/
theorem get_cycle_amended :
    barrier_get_cycle_trace = [Action.loadCycleCount] ∧
    (∀ s, barrier_get_cycle s = s.cycle_count) ∧
    (∀ b s out, barrier_wait_seq b s = some out → s.cycle_count + 1 < U64 →
      barrier_get_cycle s ≤ out.1) := by
  refine ⟨rfl, fun s => rfl, ?_⟩
  intro b s out h hlt
  unfold barrier_wait_seq at h
  dsimp only at h
  split at h
  · cases h
    simp only [barrier_get_cycle, wait_release]
    rw [Nat.mod_eq_of_lt hlt]
    omega
  · split at h
    · cases h
      simp [barrier_get_cycle]
    · cases h

/-- C3 counterexample: at `cycle_count = 2^64 - 1` the next `barrier_wait`
returns 0 (the uint64 increment wraps), strictly below what
`barrier_get_cycle` just observed — the claim's inequality is false there. -/
theorem get_cycle_wrap_cex :
    barrier_get_cycle wrapShared = U64 - 1 ∧
    (barrier_wait_seq solo_handle wrapShared).map (fun o => o.1) = some 0 ∧
    ¬ barrier_get_cycle wrapShared ≤ 0 := by
  refine ⟨rfl, ?_, by norm_num [barrier_get_cycle, wrapShared, U64]⟩
  have harr : (wrapShared.barrier_count + 1) % U32 = wrapShared.num_processes := by
    norm_num [wrapShared, U32]
  have hcyc : (wrapShared.cycle_count + 1) % U64 = 0 := by
    norm_num [wrapShared, U64]
  simp [barrier_wait_seq, wrapShared, wait_release, U32, U64]

/-- C3 witness: at the freshly initialized single-process barrier,
`barrier_get_cycle` reads 0 and the next `barrier_wait` returns 1. -/
theorem get_cycle_amended_witness :
    barrier_get_cycle solo_shared ≤ 1 :=
  get_cycle_amended.2.2 solo_handle solo_shared
    (1,
     { shm_valid := true, name_valid := true, fd := 0, is_leader := true,
       local_sense := 0, unmap_at_close := true },
     { cycle_count := 1, barrier_count := 0, num_processes := 1, sense := 1,
       initialized := 1 })
    (by decide) (by norm_num [solo_shared, barrier_init_shared, zeroShared, U64])

/-- C8: `barrier_close` on a `NULL` handle does nothing; on a handle as
produced by a successful `barrier_open` (mapping attached, name duplicated,
nonnegative descriptor) it unmaps exactly when the handle owns the mapping,
closes the descriptor, and unlinks the backing object if and only if the
handle is the leader. -/
theorem close_semantics :
    barrier_close none =
      { unmapped := false, fd_closed := false, unlinked := false,
        freed_name := false, freed_handle := false } ∧
    (∀ b : cycle_barrier, b.shm_valid = true → b.name_valid = true → 0 ≤ b.fd →
      (barrier_close (some b)).unmapped = b.unmap_at_close ∧
      (barrier_close (some b)).fd_closed = true ∧
      ((barrier_close (some b)).unlinked = true ↔ b.is_leader = true)) ∧
    (∀ env lead np s0 b shm,
      (barrier_open env lead np s0).1 = Except.ok (b, shm) →
      b.shm_valid = true ∧ b.name_valid = true ∧ 0 ≤ b.fd ∧ b.unmap_at_close = true ∧
      b.is_leader = lead) := by
  refine ⟨rfl, ?_, ?_⟩
  · intro b hshm hname hfd
    refine ⟨?_, ?_, ?_⟩
    · simp [barrier_close, hshm]
    · simp [barrier_close, hfd]
    · simp [barrier_close, hname]
  · intro env lead np s0 b shm h
    unfold barrier_open at h
    split at h
    · cases h
    · split at h
      · cases h
      · cases h
      · split at h
        · split at h
          · cases h
          · split at h
            · cases h
            · rw [Prod.fst] at h
              rcases h with ⟨⟩
              exact ⟨rfl, rfl, Int.ofNat_nonneg _, rfl, rfl⟩
        · split at h
          · cases h
          · split at h
            · cases h
            · split at h
              · cases h
              · rw [Prod.fst] at h
                rcases h with ⟨⟩
                exact ⟨rfl, rfl, Int.ofNat_nonneg _, rfl, rfl⟩

/-- C8 witness: closing the leader handle of a single-process session unmaps
(it owns the mapping), closes the descriptor, and unlinks (it is the
leader). -/
theorem close_semantics_witness :
    (barrier_close (some solo_handle)).unmapped = solo_handle.unmap_at_close ∧
    (barrier_close (some solo_handle)).fd_closed = true ∧
    ((barrier_close (some solo_handle)).unlinked = true ↔ solo_handle.is_leader = true) :=
  close_semantics.2.1 solo_handle rfl rfl (by decide)

lemma countP_addBarrier_replicate (k : Nat) :
    ((List.replicate k Action.loadSense).countP
      fun a => match a with | Action.addBarrierCount _ => true | _ => false) = 0 := by
  induction k with
  | zero => rfl
  | succ k ih => simp [List.replicate_succ, List.countP_cons, ih]

/-- C5: in every shared state reachable by barrier operations (with at most
`num_processes` `wait` calls in flight per episode, and resizes only between
episodes), `barrier_count` stays in `[0, num_processes]`; the arrival whose
increment reaches `num_processes` resets it to 0; and one `barrier_wait`
call's trace contains exactly one fetch-add of the arrival counter. -/
theorem barrier_count_bounded :
    (∀ s, BarrierReach s → s.barrier_count ≤ s.num_processes) ∧
    (∀ s my, (s.barrier_count + 1) % U32 = s.num_processes →
      (wait_shared_step my s).barrier_count = 0) ∧
    (∀ np my arr sp, ((barrier_wait_trace np my arr sp).countP
      fun a => match a with | Action.addBarrierCount _ => true | _ => false) = 1) := by
  have hstrong : ∀ s, BarrierReach s →
      s.barrier_count ≤ s.num_processes ∧ s.num_processes < U32 := by
    intro s hs
    induction hs with
    | init n =>
      exact ⟨Nat.zero_le _, Nat.mod_lt _ U32_pos⟩
    | arrive s my hin hs ih =>
      obtain ⟨hle, hlt⟩ := ih
      have harr : (s.barrier_count + 1) % U32 = s.barrier_count + 1 :=
        Nat.mod_eq_of_lt (by omega)
      by_cases hc : (s.barrier_count + 1) % U32 = s.num_processes
      · have hstep : wait_shared_step my s =
            wait_release my { s with barrier_count := (s.barrier_count + 1) % U32 } := by
          unfold wait_shared_step
          simp [hc]
        rw [hstep]
        exact ⟨Nat.zero_le _, hlt⟩
      · have hstep : wait_shared_step my s =
            { s with barrier_count := (s.barrier_count + 1) % U32 } := by
          unfold wait_shared_step
          simp [hc]
        rw [hstep]
        refine ⟨?_, hlt⟩
        show (s.barrier_count + 1) % U32 ≤ s.num_processes
        omega
    | resize s n hq hs ih =>
      exact ⟨by simp [barrier_set_num_processes, hq], Nat.mod_lt _ U32_pos⟩
  refine ⟨fun s hs => (hstrong s hs).1, ?_, ?_⟩
  · intro s my h
    unfold wait_shared_step
    dsimp only
    rw [if_pos h]
    rfl
  · intro np my arr sp
    unfold barrier_wait_trace
    split
    · rfl
    · rw [List.countP_append, List.countP_append, countP_addBarrier_replicate]
      rfl

/-- C5 witness: the freshly initialized three-process barrier satisfies the
bound, and an arrival that completes a two-process episode resets the counter
to 0. -/
theorem barrier_count_bounded_witness :
    (barrier_init_shared zeroShared 3).barrier_count ≤
      (barrier_init_shared zeroShared 3).num_processes ∧
    (wait_shared_step 1
      { cycle_count := 0, barrier_count := 1, num_processes := 2, sense := 0,
        initialized := 1 }).barrier_count = 0 :=
  ⟨barrier_count_bounded.1 _ (BarrierReach.init 3),
   barrier_count_bounded.2.1
     { cycle_count := 0, barrier_count := 1, num_processes := 2, sense := 0,
       initialized := 1 } 1 (by decide)⟩

/-! Bounded-polling lemmas for the `barrier_open` handshake. -/

lemma pollLoop_some_lt (p : Nat → Bool) :
    ∀ fuel r i, pollLoop p r fuel = some i → i < r + fuel := by
  intro fuel
  induction fuel with
  | zero => intro r i h; cases h
  | succ fuel ih =>
    intro r i h
    unfold pollLoop at h
    split at h
    · cases h; omega
    · have := ih (r + 1) i h
      omega

lemma pollLoop_none_iff (p : Nat → Bool) :
    ∀ fuel r, pollLoop p r fuel = none ↔ ∀ i, r ≤ i → i < r + fuel → p i = false := by
  intro fuel
  induction fuel with
  | zero =>
    intro r
    simp [pollLoop]
    intro i h1 h2
    omega
  | succ fuel ih =>
    intro r
    unfold pollLoop
    split
    · constructor
      · intro h; cases h
      · intro h
        have := h r le_rfl (by omega)
        simp_all
    · rw [ih (r + 1)]
      constructor
      · intro h i h1 h2
        rcases Nat.eq_or_lt_of_le h1 with he | hl
        · subst he; simp_all
        · exact h i hl (by omega)
      · intro h i h1 h2
        exact h i (by omega) (by omega)

lemma openLoop_enoent (att : Nat → OpenAttempt) (h : ∀ t, att t = OpenAttempt.enoent) :
    ∀ fuel r, openLoop att false r fuel = Phase1Res.timeout := by
  intro fuel
  induction fuel with
  | zero => intro r; rfl
  | succ fuel ih =>
    intro r
    unfold openLoop
    rw [h r]
    exact ih (r + 1)

lemma openLoop_some_lt (att : Nat → OpenAttempt) (lead : Bool) :
    ∀ fuel r i, openLoop att lead r fuel = Phase1Res.ok i → i < r + fuel := by
  intro fuel
  induction fuel with
  | zero => intro r i h; cases h
  | succ fuel ih =>
    intro r i h
    unfold openLoop at h
    split at h
    · cases h; omega
    · split at h
      · cases h
      · have := ih (r + 1) i h
        omega
    · cases h

lemma openLoop_succ_success (att : Nat → OpenAttempt) (lead : Bool) (r fuel : Nat)
    (h : att r = OpenAttempt.success) :
    openLoop att lead r (fuel + 1) = Phase1Res.ok r := by
  unfold openLoop
  rw [h]

lemma pollLoop_succ_true (p : Nat → Bool) (r fuel : Nat) (h : p r = true) :
    pollLoop p r (fuel + 1) = some r := by
  unfold pollLoop
  rw [h]
  rfl

/-- C6: each of the three polling phases of the follower path of
`barrier_open` (file existence, file size, `initialized` flag) checks at most
`max_retries = 1000` times, succeeding only within that window; exhausting
any one of the three windows makes `barrier_open` return the corresponding
failure rather than polling further. -/
theorem open_polling_bounded :
    max_retries = 1000 ∧
    (∀ att lead i, openLoop att lead 0 max_retries = Phase1Res.ok i → i < max_retries) ∧
    (∀ p i, pollLoop p 0 max_retries = some i → i < max_retries) ∧
    (∀ p, pollLoop p 0 max_retries = none ↔ ∀ i, i < max_retries → p i = false) ∧
    (∀ e np s0, e.memalignOk = true → (∀ t, e.openAt t = OpenAttempt.enoent) →
      (barrier_open e false np s0).1 = Except.error OpenErr.openTimeout) ∧
    (∀ e np s0, e.memalignOk = true → e.openAt 0 = OpenAttempt.success →
      (∀ t, e.sizedAt t = false) →
      (barrier_open e false np s0).1 = Except.error OpenErr.sizeTimeout) ∧
    (∀ e np s0, e.memalignOk = true → e.openAt 0 = OpenAttempt.success →
      e.sizedAt 0 = true → e.mmapOk = true → (∀ t, e.initAt t = false) →
      (barrier_open e false np s0).1 = Except.error OpenErr.initTimeout) := by
  refine ⟨rfl, ?_, ?_, ?_, ?_, ?_, ?_⟩
  · intro att lead i h
    simpa using openLoop_some_lt att lead max_retries 0 i h
  · intro p i h
    simpa using pollLoop_some_lt p max_retries 0 i h
  · intro p
    rw [pollLoop_none_iff p max_retries 0]
    constructor
    · intro h i hi; exact h i (Nat.zero_le _) (by omega)
    · intro h i _ hi; exact h i (by omega)
  · intro e np s0 hmem hoe
    unfold barrier_open
    rw [hmem, openLoop_enoent e.openAt hoe max_retries 0]
    rfl
  · intro e np s0 hmem ho hsz
    have hloop : openLoop e.openAt false 0 max_retries = Phase1Res.ok 0 :=
      openLoop_succ_success e.openAt false 0 999 ho
    have hpoll : pollLoop e.sizedAt 0 max_retries = none :=
      (pollLoop_none_iff e.sizedAt max_retries 0).mpr (fun i _ _ => hsz i)
    unfold barrier_open
    rw [hmem, hloop, hpoll]
    rfl
  · intro e np s0 hmem ho hsz hmm hinit
    have hloop : openLoop e.openAt false 0 max_retries = Phase1Res.ok 0 :=
      openLoop_succ_success e.openAt false 0 999 ho
    have hpoll : pollLoop e.sizedAt 0 max_retries = some 0 :=
      pollLoop_succ_true e.sizedAt 0 999 hsz
    have hpoll3 : pollLoop e.initAt 0 max_retries = none :=
      (pollLoop_none_iff e.initAt max_retries 0).mpr (fun i _ _ => hinit i)
    unfold barrier_open
    rw [hmem, hloop, hpoll, hmm, hpoll3]
    rfl

/-- C6 witness: a follower whose leader never creates the backing file gets
`openTimeout` after the bounded window, not an indefinite hang. -/
theorem open_polling_bounded_witness :
    (barrier_open absentLeaderEnv false 2 zeroShared).1 =
      Except.error OpenErr.openTimeout :=
  open_polling_bounded.2.2.2.2.1 absentLeaderEnv 2 zeroShared rfl (fun _ => rfl)

/-- Every return of `barrier_open` leaves either nothing acquired (all error
paths before the mapping, and the success paths) or — exactly on the
follower's `initialized`-timeout path — the mapping and the duplicated name,
which the error label does not release. -/
lemma barrier_open_cases (env : OpenEnv) (lead : Bool) (np : Nat)
    (s0 : cycle_barrier_shared) :
    ((barrier_open env lead np s0).1 ≠ Except.error OpenErr.initTimeout ∧
      (barrier_open env lead np s0).2 = []) ∨
    ((barrier_open env lead np s0).1 = Except.error OpenErr.initTimeout ∧
      (barrier_open env lead np s0).2 = [Res.mapping, Res.nameStr]) := by
  unfold barrier_open
  split
  · exact Or.inl ⟨by simp, rfl⟩
  · split
    · exact Or.inl ⟨by simp, rfl⟩
    · exact Or.inl ⟨by simp, rfl⟩
    · split
      · split
        · exact Or.inl ⟨by simp, rfl⟩
        · split
          · exact Or.inl ⟨by simp, rfl⟩
          · exact Or.inl ⟨by simp, rfl⟩
      · split
        · exact Or.inl ⟨by simp, rfl⟩
        · split
          · exact Or.inl ⟨by simp, rfl⟩
          · split
            · exact Or.inr ⟨rfl, rfl⟩
            · exact Or.inl ⟨by simp, rfl⟩

/-- C7 (amended): on every failure of `barrier_open` the error label releases
the open file descriptor and the allocated handle; on every failure path
before the mapping nothing stays acquired — but on the follower's
`initialized`-timeout path, entered after `mmap` and `strdup` succeeded, the
mapping and the duplicated name string stay acquired (they are leaked; see
the counterexample against the unamended claim). -/
theorem open_failure_release_amended :
    (∀ env lead np s0 e, (barrier_open env lead np s0).1 = Except.error e →
      e ≠ OpenErr.initTimeout → (barrier_open env lead np s0).2 = []) ∧
    (∀ env lead np s0 e, (barrier_open env lead np s0).1 = Except.error e →
      Res.fileDesc ∉ (barrier_open env lead np s0).2 ∧
      Res.handleMem ∉ (barrier_open env lead np s0).2) ∧
    (∀ env np s0, (barrier_open env false np s0).1 = Except.error OpenErr.initTimeout →
      (barrier_open env false np s0).2 = [Res.mapping, Res.nameStr]) := by
  refine ⟨?_, ?_, ?_⟩
  · intro env lead np s0 e h hne
    rcases barrier_open_cases env lead np s0 with ⟨h1, h2⟩ | ⟨h1, h2⟩
    · exact h2
    · rw [h] at h1
      simp only [Except.error.injEq] at h1
      exact absurd h1 hne
  · intro env lead np s0 e h
    rcases barrier_open_cases env lead np s0 with ⟨h1, h2⟩ | ⟨h1, h2⟩ <;>
      rw [h2] <;> simp
  · intro env np s0 h
    rcases barrier_open_cases env false np s0 with ⟨h1, h2⟩ | ⟨h1, h2⟩
    · exact absurd h h1
    · exact h2

/-- C7 counterexample: a follower `barrier_open` that fails with the
handshake timeout on `initialized` returns with the shared-memory mapping and
the duplicated name string still acquired — the claim that every
partially-acquired resource (including any mapping attached to the handle) is
released before a failure return is false on this path. -/
theorem open_leak_cex :
    (barrier_open leakEnv false 3 zeroShared).1 = Except.error OpenErr.initTimeout ∧
    Res.mapping ∈ (barrier_open leakEnv false 3 zeroShared).2 ∧
    Res.nameStr ∈ (barrier_open leakEnv false 3 zeroShared).2 ∧
    (barrier_open leakEnv false 3 zeroShared).2 ≠ [] := by
  have hloop : openLoop leakEnv.openAt false 0 max_retries = Phase1Res.ok 0 :=
    openLoop_succ_success leakEnv.openAt false 0 999 rfl
  have hpoll : pollLoop leakEnv.sizedAt 0 max_retries = some 0 :=
    pollLoop_succ_true leakEnv.sizedAt 0 999 rfl
  have hpoll3 : pollLoop leakEnv.initAt 0 max_retries = none :=
    (pollLoop_none_iff leakEnv.initAt max_retries 0).mpr (fun i h1 h2 => rfl)
  have hopen : barrier_open leakEnv false 3 zeroShared =
      (Except.error OpenErr.initTimeout, [Res.mapping, Res.nameStr]) := by
    unfold barrier_open
    rw [hloop, hpoll, hpoll3]
    rfl
  rw [hopen]
  exact ⟨rfl, by simp, by simp, by simp⟩

/-- C7 witness: a follower that times out waiting for the backing file to
appear (a pre-mapping failure) leaks nothing. -/
theorem open_failure_release_amended_witness :
    (barrier_open absentLeaderEnv false 2 zeroShared).2 = [] :=
  open_failure_release_amended.1 absentLeaderEnv false 2 zeroShared OpenErr.openTimeout
    (by
      unfold barrier_open
      rw [openLoop_enoent absentLeaderEnv.openAt (fun _ => rfl) max_retries 0]
      rfl)
    (by decide)

lemma config_eq {n : Nat} {a b : Config n} (h1 : a.shm = b.shm)
    (h2 : ∀ i, a.procs i = b.procs i) : a = b := by
  obtain ⟨s, f⟩ := a
  obtain ⟨t, g⟩ := b
  obtain rfl : s = t := h1
  obtain rfl : f = g := funext h2
  rfl

lemma arrivedCount_update {n : Nat} (c : Config n) (s : cycle_barrier_shared)
    (i : Fin n) (v : PState) (hi : c.procs i = PState.arriving)
    (hv : v ≠ PState.arriving) :
    arrivedCount (⟨s, Function.update c.procs i v⟩ : Config n) = arrivedCount c + 1 := by
  show (Finset.univ.filter fun j => Function.update c.procs i v j ≠ PState.arriving).card
    = arrivedCount c + 1
  have hset : (Finset.univ.filter fun j => Function.update c.procs i v j ≠ PState.arriving)
      = insert i (Finset.univ.filter fun j => c.procs j ≠ PState.arriving) := by
    ext j
    rcases eq_or_ne j i with rfl | hj
    · simp [Function.update_same, hv]
    · simp [Function.update_noteq hj, hj]
  rw [hset, Finset.card_insert_of_not_mem (by simp [hi])]
  rfl

lemma last_arriver_unique {n : Nat} (c : Config n) (i : Fin n)
    (hi : c.procs i = PState.arriving) (hA : arrivedCount c + 1 = n) :
    ∀ j, j ≠ i → c.procs j ≠ PState.arriving := by
  intro j hj hcon
  have hsub : ({i, j} : Finset (Fin n)) ⊆
      Finset.univ.filter fun k => c.procs k = PState.arriving := by
    intro k hk
    simp only [Finset.mem_insert, Finset.mem_singleton] at hk
    rcases hk with rfl | rfl <;> simp [hi, hcon]
  have h2 : 2 ≤ (Finset.univ.filter fun k => c.procs k = PState.arriving).card := by
    have hc := Finset.card_le_card hsub
    rwa [Finset.card_pair (fun h => hj h.symm)] at hc
  have hsum : (Finset.univ.filter fun k => c.procs k = PState.arriving).card
      + (Finset.univ.filter fun k => ¬ (c.procs k = PState.arriving)).card
      = n := by
    rw [Finset.filter_card_add_filter_neg_card_eq_card]
    simp
  have hcA : (Finset.univ.filter fun k => ¬ (c.procs k = PState.arriving)).card
      = arrivedCount c := by
    simp only [arrivedCount, ne_eq]
  omega

/-- One interleaved step of the wait machine preserves the episode
invariant. -/
lemma episodeInv_step {n c0 sense0 i0 m : Nat} {ms : Fin n → Nat} {c d : Config n}
    (hnU : n < U32) (hs0 : sense0 ≠ m % U32) (hms : ∀ i, ms i = m)
    (hstep : WaitStep n ms c d) (hinv : EpisodeInv n c0 sense0 i0 m c) :
    EpisodeInv n c0 sense0 i0 m d := by
  cases hstep with
  | arrive i h =>
    cases hinv with
    | gather hp hA hshm =>
      have hmod : (c.shm.barrier_count + 1) % U32 = arrivedCount c + 1 := by
        rw [hshm]
        show (arrivedCount c + 1) % U32 = arrivedCount c + 1
        exact Nat.mod_eq_of_lt (by omega)
      by_cases hc : arrivedCount c + 1 = n
      · have hcond : (c.shm.barrier_count + 1) % U32 = c.shm.num_processes := by
          rw [hmod, hshm, hc]
        rw [if_pos hcond]
        refine EpisodeInv.rel _ i 0 (by omega) ?_ ?_ ?_
        · dsimp only
          rw [Function.update_same]
        · intro k hk
          dsimp only
          rw [Function.update_noteq hk]
          have hne := last_arriver_unique c i h hc k hk
          rcases hp k with h' | h'
          · exact absurd h' hne
          · exact h'
        · have hmm : (arrivedCount c + 1) % U32 = n := by
            rw [Nat.mod_eq_of_lt (by omega), hc]
          show ({ c.shm with barrier_count := (c.shm.barrier_count + 1) % U32 }) = _
          rw [hshm]
          dsimp only
          rw [hmm]
          norm_num
      · have hcond : ¬ ((c.shm.barrier_count + 1) % U32 = c.shm.num_processes) := by
          rw [hmod, hshm]
          exact hc
        rw [if_neg hcond]
        have hupd := arrivedCount_update c
          { c.shm with barrier_count := (c.shm.barrier_count + 1) % U32 }
          i PState.spinning h (by simp)
        refine EpisodeInv.gather _ ?_ ?_ ?_
        · intro k
          rcases eq_or_ne k i with rfl | hk
          · dsimp only
            rw [Function.update_same]
            exact Or.inr rfl
          · dsimp only
            rw [Function.update_noteq hk]
            exact hp k
        · rw [hupd]
          omega
        · have hmm : (arrivedCount c + 1) % U32 = arrivedCount c + 1 :=
            Nat.mod_eq_of_lt (by omega)
          rw [hupd]
          show ({ c.shm with barrier_count := (c.shm.barrier_count + 1) % U32 }) = _
          rw [hshm]
          dsimp only
          rw [hmm]
    | rel j r hr hj hp hshm =>
      rcases eq_or_ne i j with rfl | hij
      · exact absurd (h.symm.trans hj) (by simp)
      · exact absurd (h.symm.trans (hp i hij)) (by simp)
    | released hp hshm =>
      rcases hp i with h' | h' | h' | h' <;> exact absurd (h.symm.trans h') (by simp)
  | relReset i h =>
    cases hinv with
    | gather hp hA hshm =>
      rcases hp i with h' | h' <;> exact absurd (h.symm.trans h') (by simp)
    | rel j r hr hj hp hshm =>
      have hij : i = j := by
        by_contra hne
        exact absurd (h.symm.trans (hp i hne)) (by simp)
      subst hij
      obtain rfl : r = 0 := by
        have heq := hj.symm.trans h
        exact PState.releasing.inj heq
      refine EpisodeInv.rel _ i 1 (by omega) ?_ ?_ ?_
      · dsimp only
        rw [Function.update_same]
      · intro k hk
        dsimp only
        rw [Function.update_noteq hk]
        exact hp k hk
      · show ({ c.shm with barrier_count := 0 }) = _
        rw [hshm]
        norm_num
    | released hp hshm =>
      rcases hp i with h' | h' | h' | h' <;> exact absurd (h.symm.trans h') (by simp)
  | relFence i h =>
    cases hinv with
    | gather hp hA hshm =>
      rcases hp i with h' | h' <;> exact absurd (h.symm.trans h') (by simp)
    | rel j r hr hj hp hshm =>
      have hij : i = j := by
        by_contra hne
        exact absurd (h.symm.trans (hp i hne)) (by simp)
      subst hij
      obtain rfl : r = 1 := by
        have heq := hj.symm.trans h
        exact PState.releasing.inj heq
      refine EpisodeInv.rel _ i 2 (by omega) ?_ ?_ ?_
      · dsimp only
        rw [Function.update_same]
      · intro k hk
        dsimp only
        rw [Function.update_noteq hk]
        exact hp k hk
      · rw [hshm]
        norm_num
    | released hp hshm =>
      rcases hp i with h' | h' | h' | h' <;> exact absurd (h.symm.trans h') (by simp)
  | relInc i h =>
    cases hinv with
    | gather hp hA hshm =>
      rcases hp i with h' | h' <;> exact absurd (h.symm.trans h') (by simp)
    | rel j r hr hj hp hshm =>
      have hij : i = j := by
        by_contra hne
        exact absurd (h.symm.trans (hp i hne)) (by simp)
      subst hij
      obtain rfl : r = 2 := by
        have heq := hj.symm.trans h
        exact PState.releasing.inj heq
      refine EpisodeInv.rel _ i 3 (by omega) ?_ ?_ ?_
      · dsimp only
        rw [Function.update_same]
      · intro k hk
        dsimp only
        rw [Function.update_noteq hk]
        exact hp k hk
      · show ({ c.shm with cycle_count := (c.shm.cycle_count + 1) % U64 }) = _
        rw [hshm]
        norm_num
    | released hp hshm =>
      rcases hp i with h' | h' | h' | h' <;> exact absurd (h.symm.trans h') (by simp)
  | relSense i h =>
    cases hinv with
    | gather hp hA hshm =>
      rcases hp i with h' | h' <;> exact absurd (h.symm.trans h') (by simp)
    | rel j r hr hj hp hshm =>
      have hij : i = j := by
        by_contra hne
        exact absurd (h.symm.trans (hp i hne)) (by simp)
      subst hij
      obtain rfl : r = 3 := by
        have heq := hj.symm.trans h
        exact PState.releasing.inj heq
      refine EpisodeInv.released _ ?_ ?_
      · intro k
        rcases eq_or_ne k i with rfl | hk
        · dsimp only
          rw [Function.update_same]
          exact Or.inr (Or.inl rfl)
        · dsimp only
          rw [Function.update_noteq hk]
          exact Or.inl (hp k hk)
      · show ({ c.shm with sense := ms i % U32 }) = _
        rw [hshm, hms i]
        norm_num
    | released hp hshm =>
      rcases hp i with h' | h' | h' | h' <;> exact absurd (h.symm.trans h') (by simp)
  | spinMiss i h hs =>
    exact hinv
  | spinHit i h hs =>
    cases hinv with
    | gather hp hA hshm =>
      have hsense : c.shm.sense = sense0 := by rw [hshm]
      rw [hsense, hms i] at hs
      exact absurd hs hs0
    | rel j r hr hj hp hshm =>
      have hsense : c.shm.sense = sense0 := by rw [hshm]
      rw [hsense, hms i] at hs
      exact absurd hs hs0
    | released hp hshm =>
      refine EpisodeInv.released _ ?_ hshm
      intro k
      rcases eq_or_ne k i with rfl | hk
      · dsimp only
        rw [Function.update_same]
        exact Or.inr (Or.inl rfl)
      · dsimp only
        rw [Function.update_noteq hk]
        exact hp k
  | finalFence i h =>
    cases hinv with
    | gather hp hA hshm =>
      rcases hp i with h' | h' <;> exact absurd (h.symm.trans h') (by simp)
    | rel j r hr hj hp hshm =>
      rcases eq_or_ne i j with rfl | hij
      · exact absurd (h.symm.trans hj) (by simp)
      · exact absurd (h.symm.trans (hp i hij)) (by simp)
    | released hp hshm =>
      refine EpisodeInv.released _ ?_ hshm
      intro k
      rcases eq_or_ne k i with rfl | hk
      · dsimp only
        rw [Function.update_same]
        exact Or.inr (Or.inr (Or.inl rfl))
      · dsimp only
        rw [Function.update_noteq hk]
        exact hp k
  | retLoad i h =>
    cases hinv with
    | gather hp hA hshm =>
      rcases hp i with h' | h' <;> exact absurd (h.symm.trans h') (by simp)
    | rel j r hr hj hp hshm =>
      rcases eq_or_ne i j with rfl | hij
      · exact absurd (h.symm.trans hj) (by simp)
      · exact absurd (h.symm.trans (hp i hij)) (by simp)
    | released hp hshm =>
      refine EpisodeInv.released _ ?_ hshm
      intro k
      rcases eq_or_ne k i with rfl | hk
      · dsimp only
        rw [Function.update_same]
        refine Or.inr (Or.inr (Or.inr ?_))
        rw [hshm]
      · dsimp only
        rw [Function.update_noteq hk]
        exact hp k

lemma episodeInv_start (n c0 sense0 i0 m : Nat) (hn : 0 < n) :
    EpisodeInv n c0 sense0 i0 m (episodeStart n c0 sense0 i0) := by
  have hA : arrivedCount (episodeStart n c0 sense0 i0) = 0 := by
    simp [arrivedCount, episodeStart]
  refine EpisodeInv.gather _ (fun i => Or.inl rfl) ?_ ?_
  · rw [hA]
    exact hn
  · rw [hA]
    rfl

lemma episodeInv_reach {n c0 sense0 i0 m : Nat} {ms : Fin n → Nat} {c : Config n}
    (hn : 0 < n) (hnU : n < U32) (hs0 : sense0 ≠ m % U32) (hms : ∀ i, ms i = m)
    (hreach : EpisodeReach n ms (episodeStart n c0 sense0 i0) c) :
    EpisodeInv n c0 sense0 i0 m c := by
  induction hreach with
  | refl => exact episodeInv_start n c0 sense0 i0 m hn
  | tail hab hbc ih => exact episodeInv_step hnU hs0 hms hbc ih

/-- C9: for an episode in which exactly the `n` expected processes each call
`barrier_wait` once (all holding the same locally-expected sense `m`, the
flip of the shared sense), under every interleaving of the atomic steps
— i.e. regardless of arrival order — once all processes have returned, they
all returned the identical cycle count `(c0 + 1) % 2^64`, and the shared
cycle counter advanced by exactly 1, with the arrival counter back at 0 and
the sense flag flipped to `m`. -/
theorem episode_agreement (n c0 i0 m : Nat) (ms : Fin n → Nat) (c : Config n)
    (hn : 0 < n) (hnU : n < U32) (hm : m ≤ 1) (hms : ∀ i, ms i = m)
    (hreach : EpisodeReach n ms (episodeStart n c0 (1 - m) i0) c)
    (hdone : ∀ i : Fin n, ∃ v, c.procs i = PState.done v) :
    (∀ i v, c.procs i = PState.done v → v = (c0 + 1) % U64) ∧
    c.shm.cycle_count = (c0 + 1) % U64 ∧
    c.shm.barrier_count = 0 ∧
    c.shm.sense = m := by
  have hmU : m % U32 = m := Nat.mod_eq_of_lt (by have := one_lt_U32; omega)
  have hs0 : (1 - m) ≠ m % U32 := by
    rw [hmU]
    omega
  have hinv := episodeInv_reach hn hnU hs0 hms hreach
  cases hinv with
  | gather hp hA hshm =>
    obtain ⟨v, hv⟩ := hdone ⟨0, hn⟩
    rcases hp ⟨0, hn⟩ with h' | h' <;> exact absurd (hv.symm.trans h') (by simp)
  | rel j r hr hj hp hshm =>
    obtain ⟨v, hv⟩ := hdone j
    exact absurd (hv.symm.trans hj) (by simp)
  | released hp hshm =>
    refine ⟨?_, by rw [hshm], by rw [hshm], ?_⟩
    · intro i v hv
      rcases hp i with h' | h' | h' | h'
      · exact absurd (hv.symm.trans h') (by simp)
      · exact absurd (hv.symm.trans h') (by simp)
      · exact absurd (hv.symm.trans h') (by simp)
      · exact PState.done.inj (hv.symm.trans h')
    · rw [hshm]
      exact hmU

/-- C9 witness: a concrete complete run of the machine at `n = 1`, `c0 = 0`,
`m = 1`: all returns equal `(0 + 1) % 2^64 = 1` and the shared state ends at
cycle 1, counter 0, sense 1. -/
theorem episode_agreement_witness :
    (∀ i v, demoFinal.procs i = PState.done v → v = (0 + 1) % U64) ∧
    demoFinal.shm.cycle_count = (0 + 1) % U64 ∧
    demoFinal.shm.barrier_count = 0 ∧
    demoFinal.shm.sense = 1 := by
  have hstep1 : WaitStep 1 msDemo demoStart demoCfg1 := by
    have h := @WaitStep.arrive 1 msDemo demoStart ⟨0, Nat.one_pos⟩ rfl
    convert h using 1
    exact config_eq (by decide) (fun i => by fin_cases i; decide)
  have hstep2 : WaitStep 1 msDemo demoCfg1 demoCfg2 := by
    have h := @WaitStep.relReset 1 msDemo demoCfg1 ⟨0, Nat.one_pos⟩ rfl
    convert h using 1
    exact config_eq (by decide) (fun i => by fin_cases i; decide)
  have hstep3 : WaitStep 1 msDemo demoCfg2 demoCfg3 := by
    have h := @WaitStep.relFence 1 msDemo demoCfg2 ⟨0, Nat.one_pos⟩ rfl
    convert h using 1
    exact config_eq (by decide) (fun i => by fin_cases i; decide)
  have hstep4 : WaitStep 1 msDemo demoCfg3 demoCfg4 := by
    have h := @WaitStep.relInc 1 msDemo demoCfg3 ⟨0, Nat.one_pos⟩ rfl
    convert h using 1
    exact config_eq (by decide) (fun i => by fin_cases i; decide)
  have hstep5 : WaitStep 1 msDemo demoCfg4 demoCfg5 := by
    have h := @WaitStep.relSense 1 msDemo demoCfg4 ⟨0, Nat.one_pos⟩ rfl
    convert h using 1
    exact config_eq (by decide) (fun i => by fin_cases i; decide)
  have hstep6 : WaitStep 1 msDemo demoCfg5 demoCfg6 := by
    have h := @WaitStep.finalFence 1 msDemo demoCfg5 ⟨0, Nat.one_pos⟩ rfl
    convert h using 1
    exact config_eq (by decide) (fun i => by fin_cases i; decide)
  have hstep7 : WaitStep 1 msDemo demoCfg6 demoFinal := by
    have h := @WaitStep.retLoad 1 msDemo demoCfg6 ⟨0, Nat.one_pos⟩ rfl
    convert h using 1
    exact config_eq (by decide) (fun i => by fin_cases i; decide)
  have hreach : EpisodeReach 1 msDemo demoStart demoFinal :=
    Relation.ReflTransGen.head hstep1 (Relation.ReflTransGen.head hstep2
      (Relation.ReflTransGen.head hstep3 (Relation.ReflTransGen.head hstep4
        (Relation.ReflTransGen.head hstep5 (Relation.ReflTransGen.head hstep6
          (Relation.ReflTransGen.head hstep7 Relation.ReflTransGen.refl))))))
  exact episode_agreement 1 0 1 1 msDemo demoFinal Nat.one_pos
    (by norm_num [U32]) le_rfl (fun i => rfl) hreach (fun i => ⟨1, rfl⟩)

/-! ### Single-process (`num_processes = 1`) runs -/

lemma soloState_eq (k : Nat) :
    soloState k =
      ({ solo_handle with local_sense := if k % 2 = 0 then 1 else 0 },
       { cycle_count := k % U64, barrier_count := 0, num_processes := 1,
         sense := if k % 2 = 0 then 0 else 1, initialized := 1 }) := by
  induction k with
  | zero =>
    simp [soloState, solo_handle, solo_shared, barrier_init_shared, zeroShared, U64, U32]
  | succ k ih =>
    have h1U64 : 1 % U64 = 1 := Nat.mod_eq_of_lt (by norm_num [U64])
    have hcyc : (k % U64 + 1) % U64 = (k + 1) % U64 := by
      conv_rhs => rw [Nat.add_mod, h1U64]
    rw [soloState, ih]
    rcases Nat.mod_two_eq_zero_or_one k with hk | hk
    · have hk1 : (k + 1) % 2 = 1 := by omega
      simp [barrier_wait_seq, wait_release, senseFlip, hk, hk1, hcyc, U32, U64]
    · have hk1 : (k + 1) % 2 = 0 := by omega
      simp [barrier_wait_seq, wait_release, senseFlip, hk, hk1, hcyc, U32, U64]

lemma soloRet_eq (k : Nat) : soloRet k = some ((k + 1) % U64) := by
  have h1U64 : 1 % U64 = 1 := Nat.mod_eq_of_lt (by norm_num [U64])
  have hcyc : (k % U64 + 1) % U64 = (k + 1) % U64 := by
    conv_rhs => rw [Nat.add_mod, h1U64]
  unfold soloRet
  rw [soloState_eq k]
  rcases Nat.mod_two_eq_zero_or_one k with hk | hk <;>
    simp [barrier_wait_seq, wait_release, hk, hcyc, U32, U64]

/-- C10 (amended): with `num_processes = 1`, every `barrier_wait` call's
increment reaches the expected count, so the call takes the releaser branch
(its trace contains no sense poll), leaves `barrier_count = 0`, and the
`(k+1)`-st call returns cycle count `(k + 1) % 2^64` — equal to `k + 1`
whenever `k + 1 < 2^64` (at `k + 1 = 2^64` the uint64 counter wraps; see the
counterexample). -/
theorem solo_wait_amended :
    (∀ k, ((soloState k).2.barrier_count + 1) % U32 = (soloState k).2.num_processes) ∧
    (∀ my sp, Action.loadSense ∉ barrier_wait_trace 1 my 1 sp) ∧
    (∀ k, (soloState (k + 1)).2.barrier_count = 0) ∧
    (∀ k, soloRet k = some ((k + 1) % U64)) ∧
    (∀ k, k + 1 < U64 → soloRet k = some (k + 1)) := by
  refine ⟨?_, ?_, ?_, soloRet_eq, ?_⟩
  · intro k
    rw [soloState_eq k]
    show (0 + 1) % U32 = 1
    norm_num [U32]
  · intro my sp
    simp [barrier_wait_trace]
  · intro k
    rw [soloState_eq (k + 1)]
  · intro k h
    rw [soloRet_eq k, Nat.mod_eq_of_lt h]

/-- C10 witness: the third `barrier_wait` call of a single-process barrier
returns cycle count 3. -/
theorem solo_wait_amended_witness : soloRet 2 = some 3 :=
  solo_wait_amended.2.2.2.2 2 (by norm_num [U64])

/-- C10 counterexample: the `2^64`-th `barrier_wait` call of a
single-process barrier returns 0, not `2^64` — the `k`-th call returns
`k mod 2^64`, which differs from `k` once the uint64 cycle counter wraps. -/
theorem solo_wait_wrap_cex :
    soloRet (U64 - 1) = some 0 ∧ soloRet (U64 - 1) ≠ some U64 := by
  have h : soloRet (U64 - 1) = some ((U64 - 1 + 1) % U64) := soloRet_eq (U64 - 1)
  have h0 : (U64 - 1 + 1) % U64 = 0 := by
    have : U64 - 1 + 1 = U64 := by norm_num [U64]
    rw [this, Nat.mod_self]
  rw [h, h0]
  refine ⟨rfl, ?_⟩
  simp [U64]

end CycleBarrier
